import Mathlib

/-!
Verification development for the Laskenta symbolic-expression core
(`src/Laskenta.cpp`, `src/Laskenta.h`).

The C++ core is shallowly embedded as follows.

* `R` models the `double` values that flow through the evaluator: an exact
  rational, the two infinities, or a NaN.  Rationals are the exactly
  representable fragment; where a `cmath` routine (`std::sqrt`, `std::log`,
  `std::pow` with fractional exponent, ...) would produce a value with no
  exact rational representation, the model maps the result to `nan`.  No
  theorem below depends on such a gap value.
* `Expr` is the node hierarchy restricted to the fragment the claims are
  about: the null expression (`NullExpression`), constants, variables, the
  unary kinds `ABS, SIGN, SQRT, CBRT, LOG, INVERT, NEGATE, SQUARE`, and the
  binary kinds `ADD, MUL, POW`.
* The smart constructors (`abs()`, `add()`, `commutative_add()`, `mul()`,
  `pow()`, ...) are translated override by override.  They take a fuel
  argument and return `Option Expr` (`none` = fuel exhausted) because the
  C++ recursion is not structurally decreasing.  The per-node interning
  tables are modelled as always missing, i.e. the translation builds the
  node that the C++ constructor would build on a table miss; this is
  structurally the same node that a table hit would return for the inputs
  used in the theorems below.
* The interning tables themselves, with their registration discipline, are
  modelled separately as an explicit state machine (`Tables`, `InternOp`).
* The value cache / dirty counter protocol of `Expression::data::evaluate`
  is modelled as an explicit state machine (`ValueCache`).
-/

namespace Laskenta

/-- Model of the C++ `double` values used by Laskenta: an exact rational
(`fin`), `+inf`, `-inf`, or NaN.  See the file header for the treatment of
values without an exact rational representation. -/
inductive R where
  | fin (q : ℚ)
  | inf
  | ninf
  | nan
  deriving DecidableEq

/-- Whether a modelled double is finite (`!isnan(n) && !isinf(n)`). -/
def R.finite : R → Bool
  | .fin _ => true
  | _ => false

/-- IEEE-754 addition (`Add::value`, constant folding `n + p->evaluate()`). -/
def R.addD : R → R → R
  | .nan, _ => .nan
  | _, .nan => .nan
  | .fin a, .fin b => .fin (a + b)
  | .inf, .ninf => .nan
  | .ninf, .inf => .nan
  | .inf, _ => .inf
  | _, .inf => .inf
  | .ninf, _ => .ninf
  | _, .ninf => .ninf

/-- IEEE-754 multiplication (constant folding `n * p->evaluate()`, `Square::value`,
and the non-short-circuit branch of `Mul::value`).  Note `0 * inf = nan`. -/
def R.mulD : R → R → R
  | .nan, _ => .nan
  | _, .nan => .nan
  | .fin a, .fin b => .fin (a * b)
  | .fin a, .inf => if 0 < a then .inf else if a < 0 then .ninf else .nan
  | .fin a, .ninf => if 0 < a then .ninf else if a < 0 then .inf else .nan
  | .inf, .fin b => if 0 < b then .inf else if b < 0 then .ninf else .nan
  | .ninf, .fin b => if 0 < b then .ninf else if b < 0 then .inf else .nan
  | .inf, .inf => .inf
  | .inf, .ninf => .ninf
  | .ninf, .inf => .ninf
  | .ninf, .ninf => .inf

/-- IEEE-754 negation (`Negate::value`, constant folding `-n`). -/
def R.negD : R → R
  | .fin a => .fin (-a)
  | .inf => .ninf
  | .ninf => .inf
  | .nan => .nan

/-- IEEE-754 absolute value (`Abs::value`, constant folding `std::abs(n)`). -/
def R.absD : R → R
  | .fin a => .fin (if a < 0 then -a else a)
  | .inf => .inf
  | .ninf => .inf
  | .nan => .nan

/-- Signum as computed by `double(n > 0) - (n < 0)` (`ConstantNode::sign`,
`Sign::value`).  Both comparisons are false for NaN, so a NaN input yields 0. -/
def R.sgnD : R → R
  | .fin a => .fin (if 0 < a then 1 else if a < 0 then -1 else 0)
  | .inf => .fin 1
  | .ninf => .fin (-1)
  | .nan => .fin 0

/-- IEEE-754 reciprocal `1 / n` (`Invert::value`, constant folding).
The model has a single zero, mapped to `+inf` like positive zero. -/
def R.invD : R → R
  | .fin a => if a = 0 then .inf else .fin a⁻¹
  | .inf => .fin 0
  | .ninf => .fin 0
  | .nan => .nan

/-- Exact rational square root, when one exists. -/
def ratSqrt (q : ℚ) : Option ℚ :=
  let n := Nat.sqrt q.num.toNat
  let d := Nat.sqrt q.den
  if n * n = q.num.toNat ∧ d * d = q.den then some ((n : ℚ) / (d : ℚ)) else none

/-- Model of `std::sqrt`: NaN for negative arguments; exact rational roots in the
representable fragment, `nan` for the non-representable gap. -/
def R.sqrtD : R → R
  | .fin q =>
      if q < 0 then .nan
      else match ratSqrt q with
        | some r => .fin r
        | none => .nan
  | .inf => .inf
  | .ninf => .nan
  | .nan => .nan

/-- Exact natural cube root, when one exists. -/
def natCbrt (n : Nat) : Option Nat :=
  (List.range (n + 1)).find? fun m => m * m * m = n

/-- Model of `std::cbrt`: exact rational cube roots in the representable
fragment, `nan` for the non-representable gap. -/
def R.cbrtD : R → R
  | .fin q =>
      match natCbrt q.num.natAbs, natCbrt q.den with
      | some n, some d => .fin ((q.num.sign * (n : ℤ) : ℤ) / (d : ℚ))
      | _, _ => .nan
  | .inf => .inf
  | .ninf => .ninf
  | .nan => .nan

/-- Model of `std::log`: `-inf` at 0, NaN for negative arguments, 0 at 1;
other finite values fall in the non-representable gap and map to `nan`. -/
def R.logD : R → R
  | .fin q =>
      if q < 0 then .nan
      else if q = 0 then .ninf
      else if q = 1 then .fin 0
      else .nan
  | .inf => .inf
  | .ninf => .nan
  | .nan => .nan

/-- Model of `std::pow` (`Pow::value`, constant folding `std::pow(n, ...)`).
IEEE special cases: `pow(x, 0) = 1` and `pow(1, y) = 1` even for NaN inputs;
integer exponents are computed exactly; fractional exponents of values other
than those special cases fall in the non-representable gap (`nan`). -/
def R.powD : R → R → R := fun x y =>
  match y with
  | .fin b =>
      if b = 0 then .fin 1
      else
        match x with
        | .fin a =>
            if a = 1 then .fin 1
            else if b = 1 then .fin a
            else if b.den = 1 then
              (if a = 0 then (if b < 0 then .inf else .fin 0)
               else .fin (a ^ b.num))
            else .nan
        | .inf => if 0 < b then .inf else .fin 0
        | .ninf =>
            if 0 < b then (if b.den = 1 ∧ Odd b.num then .ninf else .inf)
            else .fin 0
        | .nan => .nan
  | .inf =>
      match x with
      | .fin a => if a = 1 ∨ a = -1 then .fin 1 else if 1 < |a| then .inf else .fin 0
      | .inf => .inf
      | .ninf => .inf
      | .nan => .nan
  | .ninf =>
      match x with
      | .fin a => if a = 1 ∨ a = -1 then .fin 1 else if 1 < |a| then .fin 0 else .inf
      | .inf => .fin 0
      | .ninf => .fin 0
      | .nan => .nan
  | .nan =>
      match x with
      | .fin a => if a = 1 then .fin 1 else .nan
      | _ => .nan

/-- Unary function node kinds of the embedded fragment (a subset of the
C++ `Expression::data::NodeType` enumeration). -/
inductive Fn where
  | abs
  | sign
  | sqrt
  | cbrt
  | log
  | invert
  | negate
  | square
  deriving DecidableEq

/-- The embedded node hierarchy: `NullExpression`, `ConstantNode`,
`VariableNode` (identified by its `Variable::data` identity, modelled as a
`Nat`), `FunctionNode`s of the fragment kinds, and the operator nodes
`Add`, `Mul`, `Pow`. -/
inductive Expr where
  | null
  | cnst (c : R)
  | var (v : Nat)
  | fn (k : Fn) (f : Expr)
  | addN (f g : Expr)
  | mulN (f g : Expr)
  | powN (f g : Expr)
  deriving DecidableEq

/-- The stored per-node `depth` field: `ConstantNode` and `NullExpression`
construct with depth 0, `VariableNode` with depth 1 (Laskenta.cpp line 419),
`FunctionNode` with child depth + 1 (line 196), `OperatorNode` with
max child depth + 1 (line 236). -/
def Expr.depth : Expr → Nat
  | .null => 0
  | .cnst _ => 0
  | .var _ => 1
  | .fn _ f => f.depth + 1
  | .addN f g => max f.depth g.depth + 1
  | .mulN f g => max f.depth g.depth + 1
  | .powN f g => max f.depth g.depth + 1

/-- Modelled from the spec: the rebalancing guard constant `STACK_LIMIT` is
defined in `Tools.h`, which is not part of `src/`; spec section 4.2 fixes the
limit used by the original at 10000. -/
def STACK_LIMIT : Nat := 10000

/-- The attribute vocabulary `Expression::Attribute` (Laskenta.h). -/
inductive Attr where
  | DEFINED
  | NONZERO
  | POSITIVE
  | NEGATIVE
  | NONPOSITIVE
  | NONNEGATIVE
  | UNITRANGE
  | ANTIUNITRANGE
  | OPENUNITRANGE
  | ANTIOPENUNITRANGE
  | CONTINUOUS
  | INCREASING
  | DECREASING
  | NONINCREASING
  | NONDECREASING
  | BOUNDEDABOVE
  | BOUNDEDBELOW
  deriving DecidableEq

/-- `ConstantNode::guaranteed` (lines 3239-3280): answers only for finite
values; `INCREASING`/`DECREASING` fall through to `false`. -/
def guaranteedConst (c : R) (a : Attr) : Bool :=
  match c with
  | .fin n =>
      match a with
      | .DEFINED | .CONTINUOUS | .NONINCREASING | .NONDECREASING
      | .BOUNDEDABOVE | .BOUNDEDBELOW => true
      | .NONZERO => decide (n ≠ 0)
      | .POSITIVE => decide (0 < n)
      | .NEGATIVE => decide (n < 0)
      | .NONPOSITIVE => decide (n ≤ 0)
      | .NONNEGATIVE => decide (0 ≤ n)
      | .UNITRANGE => decide (-1 ≤ n ∧ n ≤ 1)
      | .ANTIUNITRANGE => decide (n < -1 ∨ 1 < n)
      | .OPENUNITRANGE => decide (-1 < n ∧ n < 1)
      | .ANTIOPENUNITRANGE => decide (n ≤ -1 ∨ 1 ≤ n)
      | _ => false
  | _ => false

/-- The `guaranteed` analysis of the fragment, translated override by
override: `VariableNode` (3282), `Abs` (3296), `Sign` (3343), `Sqrt` (3376),
`Cbrt` (3403), `Log` (3467), `Invert` (3834), `Negate` (3879), `Square`
(3928), `Add` (4093), `Mul` (4164), `Pow` (4227); `NullExpression` always
answers `false` (line 284). -/
def guaranteedC : Expr → Attr → Bool
  | .null, _ => false
  | .cnst c, a => guaranteedConst c a
  | .var _, a =>
      match a with
      | .DEFINED | .CONTINUOUS | .INCREASING | .NONDECREASING => true
      | _ => false
  | .fn .abs f, a =>
      guaranteedC f .DEFINED &&
      match a with
      | .DEFINED | .NONNEGATIVE | .BOUNDEDBELOW => true
      | .NONZERO | .UNITRANGE | .ANTIUNITRANGE | .OPENUNITRANGE
      | .ANTIOPENUNITRANGE | .CONTINUOUS => guaranteedC f a
      | .POSITIVE => guaranteedC f .NONZERO
      | .INCREASING =>
          (guaranteedC f .INCREASING && guaranteedC f .POSITIVE) ||
          (guaranteedC f .DECREASING && guaranteedC f .NEGATIVE)
      | .DECREASING =>
          (guaranteedC f .DECREASING && guaranteedC f .POSITIVE) ||
          (guaranteedC f .INCREASING && guaranteedC f .NEGATIVE)
      | .NONINCREASING =>
          (guaranteedC f .NONINCREASING && guaranteedC f .NONNEGATIVE) ||
          (guaranteedC f .NONDECREASING && guaranteedC f .NONPOSITIVE)
      | .NONDECREASING =>
          (guaranteedC f .NONDECREASING && guaranteedC f .NONNEGATIVE) ||
          (guaranteedC f .NONINCREASING && guaranteedC f .NONPOSITIVE)
      | .BOUNDEDABOVE => guaranteedC f .BOUNDEDABOVE && guaranteedC f .BOUNDEDBELOW
      | _ => false
  | .fn .sign f, a =>
      guaranteedC f .DEFINED &&
      match a with
      | .DEFINED | .UNITRANGE | .BOUNDEDABOVE | .BOUNDEDBELOW => true
      | .NONZERO | .POSITIVE | .NEGATIVE | .NONPOSITIVE | .NONNEGATIVE => guaranteedC f a
      | .ANTIOPENUNITRANGE => guaranteedC f .NONZERO
      | .CONTINUOUS => guaranteedC f .POSITIVE || guaranteedC f .NEGATIVE
      | .NONINCREASING =>
          guaranteedC f .NONINCREASING || guaranteedC f .POSITIVE || guaranteedC f .NEGATIVE
      | .NONDECREASING =>
          guaranteedC f .NONDECREASING || guaranteedC f .POSITIVE || guaranteedC f .NEGATIVE
      | _ => false
  | .fn .sqrt f, a =>
      guaranteedC f .NONNEGATIVE &&
      match a with
      | .DEFINED | .NONNEGATIVE | .BOUNDEDBELOW => true
      | .NONZERO | .POSITIVE | .UNITRANGE | .ANTIUNITRANGE | .OPENUNITRANGE
      | .ANTIOPENUNITRANGE | .CONTINUOUS | .INCREASING | .DECREASING
      | .NONINCREASING | .NONDECREASING | .BOUNDEDABOVE => guaranteedC f a
      | _ => false
  | .fn .cbrt f, a =>
      guaranteedC f .DEFINED &&
      match a with
      | .DEFINED => true
      | _ => guaranteedC f a
  | .fn .log f, a =>
      guaranteedC f .POSITIVE &&
      match a with
      | .DEFINED => true
      | .CONTINUOUS | .INCREASING | .DECREASING | .NONINCREASING
      | .NONDECREASING | .BOUNDEDABOVE => guaranteedC f a
      | .NONZERO => guaranteedC f .ANTIUNITRANGE || guaranteedC f .OPENUNITRANGE
      | .POSITIVE => guaranteedC f .ANTIUNITRANGE
      | .NEGATIVE => guaranteedC f .OPENUNITRANGE
      | .NONPOSITIVE => guaranteedC f .UNITRANGE
      | .NONNEGATIVE => guaranteedC f .ANTIOPENUNITRANGE
      | _ => false
  | .fn .invert f, a =>
      guaranteedC f .NONZERO &&
      match a with
      | .DEFINED | .NONZERO => true
      | .POSITIVE | .NEGATIVE | .NONPOSITIVE | .NONNEGATIVE => guaranteedC f a
      | .UNITRANGE => guaranteedC f .ANTIOPENUNITRANGE
      | .ANTIUNITRANGE => guaranteedC f .OPENUNITRANGE
      | .OPENUNITRANGE => guaranteedC f .ANTIUNITRANGE
      | .ANTIOPENUNITRANGE => guaranteedC f .UNITRANGE
      | .CONTINUOUS => guaranteedC f .POSITIVE || guaranteedC f .NEGATIVE
      | .INCREASING =>
          guaranteedC f .DECREASING && (guaranteedC f .POSITIVE || guaranteedC f .NEGATIVE)
      | .DECREASING =>
          guaranteedC f .INCREASING && (guaranteedC f .POSITIVE || guaranteedC f .NEGATIVE)
      | .NONINCREASING =>
          guaranteedC f .NONDECREASING && (guaranteedC f .POSITIVE || guaranteedC f .NEGATIVE)
      | .NONDECREASING =>
          guaranteedC f .NONINCREASING && (guaranteedC f .POSITIVE || guaranteedC f .NEGATIVE)
      | _ => false
  | .fn .negate f, a =>
      guaranteedC f .DEFINED &&
      match a with
      | .DEFINED => true
      | .NONZERO | .UNITRANGE | .ANTIUNITRANGE | .OPENUNITRANGE
      | .ANTIOPENUNITRANGE | .CONTINUOUS => guaranteedC f a
      | .POSITIVE => guaranteedC f .NEGATIVE
      | .NEGATIVE => guaranteedC f .POSITIVE
      | .NONPOSITIVE => guaranteedC f .NONNEGATIVE
      | .NONNEGATIVE => guaranteedC f .NONPOSITIVE
      | .INCREASING => guaranteedC f .DECREASING
      | .DECREASING => guaranteedC f .INCREASING
      | .NONINCREASING => guaranteedC f .NONDECREASING
      | .NONDECREASING => guaranteedC f .NONINCREASING
      | .BOUNDEDABOVE => guaranteedC f .BOUNDEDBELOW
      | .BOUNDEDBELOW => guaranteedC f .BOUNDEDABOVE
  | .fn .square f, a =>
      guaranteedC f .DEFINED &&
      match a with
      | .DEFINED | .NONNEGATIVE | .BOUNDEDBELOW => true
      | .NONZERO | .UNITRANGE | .ANTIUNITRANGE | .OPENUNITRANGE
      | .ANTIOPENUNITRANGE | .CONTINUOUS => guaranteedC f a
      | .POSITIVE => guaranteedC f .NONZERO
      | .INCREASING =>
          (guaranteedC f .INCREASING && guaranteedC f .POSITIVE) ||
          (guaranteedC f .DECREASING && guaranteedC f .NEGATIVE)
      | .DECREASING =>
          (guaranteedC f .DECREASING && guaranteedC f .POSITIVE) ||
          (guaranteedC f .INCREASING && guaranteedC f .NEGATIVE)
      | .NONINCREASING =>
          (guaranteedC f .NONINCREASING && guaranteedC f .NONNEGATIVE) ||
          (guaranteedC f .NONDECREASING && guaranteedC f .NONPOSITIVE)
      | .NONDECREASING =>
          (guaranteedC f .NONDECREASING && guaranteedC f .NONNEGATIVE) ||
          (guaranteedC f .NONINCREASING && guaranteedC f .NONPOSITIVE)
      | .BOUNDEDABOVE => guaranteedC f .BOUNDEDABOVE && guaranteedC f .BOUNDEDBELOW
      | _ => false
  | .addN f g, a =>
      (guaranteedC f .DEFINED && guaranteedC g .DEFINED) &&
      match a with
      | .DEFINED => true
      | .NONZERO =>
          (guaranteedC f .POSITIVE && guaranteedC g .NONNEGATIVE) ||
          (guaranteedC f .NEGATIVE && guaranteedC g .NONPOSITIVE) ||
          (guaranteedC f .NONPOSITIVE && guaranteedC g .NEGATIVE) ||
          (guaranteedC f .NONNEGATIVE && guaranteedC g .POSITIVE)
      | .POSITIVE =>
          (guaranteedC f .POSITIVE && guaranteedC g .NONNEGATIVE) ||
          (guaranteedC f .NONNEGATIVE && guaranteedC g .POSITIVE)
      | .NEGATIVE =>
          (guaranteedC f .NEGATIVE && guaranteedC g .NONPOSITIVE) ||
          (guaranteedC f .NONPOSITIVE && guaranteedC g .NEGATIVE)
      | .NONPOSITIVE | .NONNEGATIVE | .CONTINUOUS | .NONINCREASING
      | .NONDECREASING | .BOUNDEDABOVE | .BOUNDEDBELOW =>
          guaranteedC f a && guaranteedC g a
      | .INCREASING =>
          (guaranteedC f .INCREASING && guaranteedC g .NONDECREASING) ||
          (guaranteedC f .NONDECREASING && guaranteedC g .INCREASING)
      | .DECREASING =>
          (guaranteedC f .DECREASING && guaranteedC g .NONINCREASING) ||
          (guaranteedC f .NONINCREASING && guaranteedC g .DECREASING)
      | _ => false
  | .mulN f g, a =>
      (guaranteedC f .DEFINED && guaranteedC g .DEFINED) &&
      match a with
      | .DEFINED => true
      | .NONZERO => guaranteedC f a && guaranteedC g a
      | .POSITIVE =>
          (guaranteedC f .POSITIVE && guaranteedC g .POSITIVE) ||
          (guaranteedC f .NEGATIVE && guaranteedC g .NEGATIVE)
      | .NEGATIVE =>
          (guaranteedC f .POSITIVE && guaranteedC g .NEGATIVE) ||
          (guaranteedC f .NEGATIVE && guaranteedC g .POSITIVE)
      | .UNITRANGE | .ANTIUNITRANGE | .OPENUNITRANGE | .ANTIOPENUNITRANGE
      | .CONTINUOUS => guaranteedC f a && guaranteedC g a
      | _ => false
  | .powN f g, a =>
      (guaranteedC f .POSITIVE && guaranteedC g .DEFINED) &&
      match a with
      | .DEFINED | .NONZERO | .POSITIVE | .NONNEGATIVE => true
      | .CONTINUOUS => guaranteedC f a && guaranteedC g a
      | _ => false

/-- `easyInvert`: `ConstantNode` (n != 0; true for NaN since `NaN != 0` holds),
`Invert` (true), `Negate` (forwards to the child); default false. -/
def easyInvert : Expr → Bool
  | .cnst c => decide (c ≠ .fin 0)
  | .fn .invert _ => true
  | .fn .negate f => easyInvert f
  | _ => false

/-- `easyNegate`: `ConstantNode` (true), `Negate` (true); `Invert` returns
false (after an unreachable-assertion on its child); default false. -/
def easyNegate : Expr → Bool
  | .cnst _ => true
  | .fn .negate _ => true
  | _ => false

mutual

/-- Virtual `abs()`: overrides `ConstantNode` (1222), `Abs` (1227), `Sqrt`
(1232), `Invert` (1257), `Negate` (1267), `Square` (1272); other kinds use
the base `Expression::data::abs` (1214). -/
def smAbs : Nat → Expr → Option Expr
  | 0, _ => none
  | fuel + 1, e =>
      match e with
      | .cnst c => some (.cnst c.absD)
      | .fn .abs _ => some e
      | .fn .sqrt _ => some e
      | .fn .invert f => do
          let s ← smAbs fuel f
          smInvert fuel s
      | .fn .negate f => smAbs fuel f
      | .fn .square _ => some e
      | _ => baseAbs fuel e

/-- Base `Expression::data::abs` (1214): attribute short-circuits, then the
`ABS` function node. -/
def baseAbs : Nat → Expr → Option Expr
  | 0, _ => none
  | fuel + 1, e =>
      if guaranteedC e .NONNEGATIVE then some e
      else if guaranteedC e .NONPOSITIVE then smNegate fuel e
      else some (.fn .abs e)

/-- Virtual `sign()`: overrides `ConstantNode` (1303), `Abs` (1308), `Sign`
(1318), `Cbrt` (1323), `Invert` (1373), `Negate` (1383); base at 1296. -/
def smSign : Nat → Expr → Option Expr
  | 0, _ => none
  | fuel + 1, e =>
      match e with
      | .cnst c => some (.cnst c.sgnD)
      | .fn .abs f => do
          let s ← smSign fuel f
          smAbs fuel s
      | .fn .sign _ => some e
      | .fn .cbrt f => smSign fuel f
      | .fn .invert f => do
          let s ← smSign fuel f
          smInvert fuel s
      | .fn .negate f => do
          let s ← smSign fuel f
          smNegate fuel s
      | _ => baseSign fuel e

/-- Base `Expression::data::sign` (1296). -/
def baseSign : Nat → Expr → Option Expr
  | 0, _ => none
  | _ + 1, e =>
      if guaranteedC e .POSITIVE then some (.cnst (.fin 1))
      else if guaranteedC e .NEGATIVE then some (.cnst (.fin (-1)))
      else some (.fn .sign e)

/-- Virtual `sqrt()`: overrides `ConstantNode` (1402), `Sign` (1407),
`Invert` (1412), `Square` (1422), `Pow` (1427); base at 1397 builds the
`SQRT` node. -/
def smSqrt : Nat → Expr → Option Expr
  | 0, _ => none
  | fuel + 1, e =>
      match e with
      | .cnst c => some (.cnst c.sqrtD)
      | .fn .sign f => if guaranteedC f .NONNEGATIVE then some e else some (.fn .sqrt e)
      | .fn .invert f => do
          let s ← smSqrt fuel f
          smInvert fuel s
      | .fn .square f => smAbs fuel f
      | .powN f g => do
          let s ← smMul fuel g (.cnst (.fin (1 / 2)))
          smPow fuel f s
      | _ => some (.fn .sqrt e)

/-- Virtual `cbrt()`: overrides `ConstantNode` (1446), `Sign` (1451),
`Invert` (1456), `Negate` (1466), `Pow` (1476); base at 1441. -/
def smCbrt : Nat → Expr → Option Expr
  | 0, _ => none
  | fuel + 1, e =>
      match e with
      | .cnst c => some (.cnst c.cbrtD)
      | .fn .sign _ => some e
      | .fn .invert f => do
          let s ← smCbrt fuel f
          smInvert fuel s
      | .fn .negate f => do
          let s ← smCbrt fuel f
          smNegate fuel s
      | .powN f g => do
          let s ← smMul fuel g (.cnst (.fin (1 / 3)))
          smPow fuel f s
      | _ => some (.fn .cbrt e)

/-- Virtual `log()`: overrides `ConstantNode` (1534) and `Invert` (1544);
base at 1529.  (The `Exp::log` override concerns a node kind outside the
fragment.) -/
def smLog : Nat → Expr → Option Expr
  | 0, _ => none
  | fuel + 1, e =>
      match e with
      | .cnst c => some (.cnst c.logD)
      | .fn .invert f => do
          let s ← smLog fuel f
          smNegate fuel s
      | _ => some (.fn .log e)

/-- Virtual `invert()`: overrides `ConstantNode` (1999), `Invert` (2014),
`Negate` (2019), `Pow` (2029); base at 1994. -/
def smInvert : Nat → Expr → Option Expr
  | 0, _ => none
  | fuel + 1, e =>
      match e with
      | .cnst c => some (.cnst c.invD)
      | .fn .invert f => if guaranteedC f .NONZERO then some f else some (.fn .invert e)
      | .fn .negate f => do
          let s ← smInvert fuel f
          smNegate fuel s
      | .powN f g => do
          let s ← smNegate fuel g
          smPow fuel f s
      | _ => some (.fn .invert e)

/-- Virtual `negate()`: overrides `ConstantNode` (2048) and `Negate` (2053);
base at 2043. -/
def smNegate : Nat → Expr → Option Expr
  | 0, _ => none
  | _ + 1, e =>
      match e with
      | .cnst c => some (.cnst c.negD)
      | .fn .negate f => some f
      | _ => some (.fn .negate e)

/-- Virtual `square()`: overrides `ConstantNode` (2067), `Abs` (2072),
`Sqrt` (2077), `Invert` (2082), `Negate` (2092), `Pow` (2097); base at 2062. -/
def smSquare : Nat → Expr → Option Expr
  | 0, _ => none
  | fuel + 1, e =>
      match e with
      | .cnst c => some (.cnst (c.mulD c))
      | .fn .abs f => smSquare fuel f
      | .fn .sqrt f => if guaranteedC f .NONNEGATIVE then some f else some (.fn .square e)
      | .fn .invert f => do
          let s ← smSquare fuel f
          smInvert fuel s
      | .fn .negate f => smSquare fuel f
      | .powN f g => do
          let s ← smAdd fuel g g
          smPow fuel f s
      | _ => some (.fn .square e)

/-- Virtual `add(p)` with receiver `e`: overrides `NullExpression` (281),
`ConstantNode` (2234), `Negate` (2250, which just forwards to the base), and
`Add` (2255, depth-guarded rebalancing); base at 2223. -/
def smAdd : Nat → Expr → Expr → Option Expr
  | 0, _, _ => none
  | fuel + 1, e, p =>
      match e with
      | .null => some p
      | .cnst c =>
          match p with
          | .cnst d => some (.cnst (c.addD d))
          | _ =>
              if p = .fn .negate (.cnst c) then some (.cnst (.fin 0))
              else if c = .fin 0 then some p
              else baseAdd fuel e p
      | .fn .negate _ => baseAdd fuel e p
      | .addN f g =>
          if STACK_LIMIT < e.depth then
            if f.depth < g.depth then do
              let s ← smAdd fuel f p
              smAdd fuel g s
            else if g.depth < f.depth then do
              let s ← smAdd fuel g p
              smAdd fuel f s
            else baseAdd fuel e p
          else baseAdd fuel e p
      | _ => baseAdd fuel e p

/-- Base `Expression::data::add` (2223): `p->commutative_add(this)`. -/
def baseAdd : Nat → Expr → Expr → Option Expr
  | 0, _, _ => none
  | fuel + 1, e, p => smCAdd fuel p e

/-- Virtual `commutative_add(p)` with receiver `e`: overrides `ConstantNode`
(2242) and `Add` (2279); base at 2228. -/
def smCAdd : Nat → Expr → Expr → Option Expr
  | 0, _, _ => none
  | fuel + 1, e, p =>
      match e with
      | .cnst c =>
          match p with
          | .cnst d => some (.cnst (c.addD d))
          | _ =>
              if p = .fn .negate (.cnst c) then some (.cnst (.fin 0))
              else if c = .fin 0 then some p
              else baseCAdd fuel e p
      | .addN f g =>
          if STACK_LIMIT < e.depth then
            if f.depth < g.depth then do
              let s ← smCAdd fuel f p
              smCAdd fuel g s
            else if g.depth < f.depth then do
              let s ← smCAdd fuel g p
              smCAdd fuel f s
            else baseCAdd fuel e p
          else baseCAdd fuel e p
      | _ => baseCAdd fuel e p

/-- Base `Expression::data::commutative_add` (2228): the `addNode` interning
lookup (modelled as a miss) and `new Add(Clone(p), Clone(this))`. -/
def baseCAdd : Nat → Expr → Expr → Option Expr
  | 0, _, _ => none
  | _ + 1, e, p => some (.addN p e)

/-- Virtual `mul(p)` with receiver `e`: overrides `NullExpression` (282),
`ConstantNode` (2319), `Invert` (2339: note the fallback calls the base
`Expression::data::add`, not `mul`), `Negate` (2354), `Square` (2372),
`Add` (2384), `Mul` (2414), `Pow` (2462); base at 2307. -/
def smMul : Nat → Expr → Expr → Option Expr
  | 0, _, _ => none
  | fuel + 1, e, p =>
      match e with
      | .null => some p
      | .cnst c =>
          match p with
          | .cnst d => some (.cnst (c.mulD d))
          | _ =>
              if c = .fin 0 then some (.cnst c)
              else if c = .fin 1 then some p
              else if c = .fin 2 then smAdd fuel p p
              else if c = .fin (-1) then smNegate fuel p
              else baseMul fuel e p
      | .fn .invert f =>
          if easyInvert p then do
            let s ← smInvert fuel p
            let t ← smMul fuel f s
            smInvert fuel t
          else baseAdd fuel e p
      | .fn .negate f =>
          if easyNegate p then do
            let s ← smNegate fuel p
            smMul fuel f s
          else do
            let s ← smMul fuel f p
            smNegate fuel s
      | .fn .square f =>
          if f = p then smPow fuel f (.cnst (.fin 3))
          else baseMul fuel e p
      | .addN f g =>
          if STACK_LIMIT < e.depth then do
            let s ← smMul fuel f p
            let t ← smMul fuel g p
            smAdd fuel s t
          else baseMul fuel e p
      | .mulN f g =>
          if STACK_LIMIT < e.depth then
            if f.depth < g.depth then do
              let s ← smMul fuel f p
              smMul fuel g s
            else if g.depth < f.depth then do
              let s ← smMul fuel g p
              smMul fuel f s
            else baseMul fuel e p
          else baseMul fuel e p
      | .powN f g =>
          if f = p then do
            let s ← smAdd fuel g (.cnst (.fin 1))
            smPow fuel f s
          else baseMul fuel e p
      | _ => baseMul fuel e p

/-- Base `Expression::data::mul` (2307): the self-product shortcut to
`square()`, then `p->commutative_mul(this)`. -/
def baseMul : Nat → Expr → Expr → Option Expr
  | 0, _, _ => none
  | fuel + 1, e, p => if p = e then smSquare fuel e else smCMul fuel p e

/-- Virtual `commutative_mul(p)` with receiver `e`: overrides `ConstantNode`
(2329), `Square` (2378), `Add` (2399), `Mul` (2438), `Pow` (2477); base at
2313. -/
def smCMul : Nat → Expr → Expr → Option Expr
  | 0, _, _ => none
  | fuel + 1, e, p =>
      match e with
      | .cnst c =>
          match p with
          | .cnst d => some (.cnst (c.mulD d))
          | _ =>
              if c = .fin 0 then some (.cnst c)
              else if c = .fin 1 then some p
              else if c = .fin 2 then smAdd fuel p p
              else if c = .fin (-1) then smNegate fuel p
              else baseCMul fuel e p
      | .fn .square f =>
          if f = p then smPow fuel f (.cnst (.fin 3))
          else baseCMul fuel e p
      | .addN f g =>
          if STACK_LIMIT < e.depth then do
            let s ← smCMul fuel p f
            let t ← smCMul fuel p g
            smAdd fuel s t
          else baseCMul fuel e p
      | .mulN f g =>
          if STACK_LIMIT < e.depth then
            if f.depth < g.depth then do
              let s ← smCMul fuel f p
              smCMul fuel g s
            else if g.depth < f.depth then do
              let s ← smCMul fuel g p
              smCMul fuel f s
            else baseCMul fuel e p
          else baseCMul fuel e p
      | .powN f g =>
          if f = p then do
            let s ← smAdd fuel g (.cnst (.fin 1))
            smPow fuel f s
          else baseCMul fuel e p
      | _ => baseCMul fuel e p

/-- Base `Expression::data::commutative_mul` (2313): the `mulNode` interning
lookup (modelled as a miss) and `new Mul(Clone(p), Clone(this))`. -/
def baseCMul : Nat → Expr → Expr → Option Expr
  | 0, _, _ => none
  | _ + 1, e, p => some (.mulN p e)

/-- Virtual `pow(p)` with receiver `e`: overrides `ConstantNode` (2514),
`Sqrt` (2523), `Cbrt` (2533), `Invert` (2553), `Square` (2563), `Pow`
(2573); base at 2496.  The `n == std::exp(1)` branch of `ConstantNode::pow`
can never fire in the rational carrier (no rational equals e), so it is not
represented. -/
def smPow : Nat → Expr → Expr → Option Expr
  | 0, _, _ => none
  | fuel + 1, e, p =>
      match e with
      | .cnst c =>
          match p with
          | .cnst d => some (.cnst (c.powD d))
          | _ =>
              if c = .fin 0 && guaranteedC p .NONZERO then some (.cnst c)
              else if c = .fin 1 then some (.cnst c)
              else basePow fuel e p
      | .fn .sqrt f => do
          let s ← smMul fuel p (.cnst (.fin (1 / 2)))
          smPow fuel f s
      | .fn .cbrt f => do
          let s ← smMul fuel p (.cnst (.fin (1 / 3)))
          smPow fuel f s
      | .fn .invert f => do
          let s ← smPow fuel f p
          smInvert fuel s
      | .fn .square f => do
          let s ← smAdd fuel p p
          smPow fuel f s
      | .powN f g => do
          let s ← smMul fuel g p
          smPow fuel f s
      | _ => basePow fuel e p

/-- Base `Expression::data::pow` (2496): constant-exponent shortcuts, then
the `powNode` interning lookup (modelled as a miss) and `new Pow`. -/
def basePow : Nat → Expr → Expr → Option Expr
  | 0, _, _ => none
  | fuel + 1, e, p =>
      match p with
      | .cnst d =>
          if d = .fin 0 then some (.cnst (.fin 1))
          else if d = .fin 1 then some e
          else if d = .fin 2 then smSquare fuel e
          else if d = .fin (-1) then smInvert fuel e
          else if d = .fin (1 / 2) then smSqrt fuel e
          else if d = .fin (1 / 3) then smCbrt fuel e
          else some (.powN e p)
      | _ => some (.powN e p)

end

/-- The numeric `value()` rule of each unary kind: `Abs::value` (3078),
`Sign::value` (3083), `Sqrt::value` (3088), `Cbrt::value` (3093),
`Log::value` (3103), `Invert::value` (3178), `Negate::value` (3183),
`Square::value` (3188). -/
def applyFn : Fn → R → R
  | .abs, x => x.absD
  | .sign, x => x.sgnD
  | .sqrt, x => x.sqrtD
  | .cbrt, x => x.cbrtD
  | .log, x => x.logD
  | .invert, x => x.invD
  | .negate, x => x.negD
  | .square, x => x.mulD x

/-- Recursive evaluation as performed by the `value()` overrides, together
with a count of how many nodes' `value()` ran.  `none` models the fatal
`FAIL` of `NullExpression::value` (290).  `Mul::value` (3217) short-circuits:
a first factor equal to exactly 0 yields 0 without touching the second
factor's value path, and a second factor equal to 0 yields 0 regardless of
the first factor's value.  Variable values are finite by the assertions in
`Variable::operator=`, hence the rational environment.  (The per-node cache
stamping is modelled separately by `evaluateCached`.) -/
def evalC : Expr → (Nat → ℚ) → Option (R × Nat)
  | .null, _ => none
  | .cnst c, _ => some (c, 1)
  | .var v, env => some (.fin (env v), 1)
  | .fn k f, env => do
      let (x, m) ← evalC f env
      some (applyFn k x, m + 1)
  | .addN f g, env => do
      let (x, m) ← evalC f env
      let (y, n) ← evalC g env
      some (x.addD y, m + n + 1)
  | .mulN f g, env => do
      let (x, m) ← evalC f env
      if x = .fin 0 then some (.fin 0, m + 1)
      else do
        let (y, n) ← evalC g env
        if y = .fin 0 then some (.fin 0, m + n + 1)
        else some (x.mulD y, m + n + 1)
  | .powN f g, env => do
      let (x, m) ← evalC f env
      let (y, n) ← evalC g env
      some (x.powD y, m + n + 1)

/-- The virtual `derivative(r)` rules (2587-3062), with `r` and the node's
variable compared by identity; results are built through the smart
constructors, so the fuel discipline is inherited.  `NullExpression`
returns a clone of itself (289). -/
def derivC : Nat → Expr → Nat → Option Expr
  | 0, _, _ => none
  | fuel + 1, e, v =>
      match e with
      | .null => some .null
      | .cnst _ => some (.cnst (.fin 0))
      | .var u => some (.cnst (.fin (if v = u then 1 else 0)))
      | .fn .abs f => do
          let d ← derivC fuel f v
          let s ← smSign fuel f
          smMul fuel d s
      | .fn .sign _ => some (.cnst (.fin 0))
      | .fn .sqrt f => do
          let d ← derivC fuel f v
          let s ← smAdd fuel e e
          let t ← smInvert fuel s
          smMul fuel d t
      | .fn .cbrt f => do
          let d ← derivC fuel f v
          let s ← smSquare fuel e
          let t ← smMul fuel s (.cnst (.fin 3))
          let u ← smInvert fuel t
          smMul fuel d u
      | .fn .log f => do
          let d ← derivC fuel f v
          let s ← smInvert fuel f
          smMul fuel d s
      | .fn .invert f => do
          let d ← derivC fuel f v
          let s ← smSquare fuel e
          let t ← smMul fuel d s
          smNegate fuel t
      | .fn .negate f => do
          let d ← derivC fuel f v
          smNegate fuel d
      | .fn .square f => do
          let d ← derivC fuel f v
          let s ← smAdd fuel f f
          smMul fuel d s
      | .addN f g => do
          let df ← derivC fuel f v
          let dg ← derivC fuel g v
          smAdd fuel dg df
      | .mulN f g => do
          let df ← derivC fuel f v
          let dg ← derivC fuel g v
          let s ← smMul fuel dg f
          let t ← smMul fuel df g
          smAdd fuel t s
      | .powN f g => do
          let df ← derivC fuel f v
          let dg ← derivC fuel g v
          let l ← smLog fuel f
          let gm1 ← smAdd fuel g (.cnst (.fin (-1)))
          let p1 ← smPow fuel f gm1
          let s5 ← smMul fuel g p1
          let s6 ← smMul fuel e l
          let s7 ← smMul fuel df s5
          let s8 ← smMul fuel dg s6
          smAdd fuel s7 s8

/-- `Expression::data::derive` (line 95):
`Clone(cachedNode ? cachedNode : cachedNode = derivative(r))`.
Input: the node's `cachedNode` state and the node; output: the returned
handle, the new `cachedNode` state, and whether `derivative` ran. -/
def deriveCached (fuel : Nat) (cache : Option Expr) (e : Expr) (v : Nat) :
    Option (Expr × Option Expr × Bool) :=
  match cache with
  | some d => some (d, some d, false)
  | none => (derivC fuel e v).map fun d => (d, some d, true)

/-- Per-node numeric cache: the `cleanLevel` stamp and `valueCache` fields of
`Expression::data` (lines 149-150). -/
structure ValueCache where
  cleanLevel : Nat
  valueCache : R
  deriving DecidableEq

/-- `Expression::data::evaluate` (line 96):
`if (cleanLevel != dirtyLevel) { valueCache = value(); cleanLevel = dirtyLevel; } return valueCache;`.
`compute` stands for what the virtual `value()` would produce; the result is
the returned number, the new cache state, and whether `value()` ran. -/
def evaluateCached (dirtyLevel : Nat) (s : ValueCache) (compute : R) :
    R × ValueCache × Bool :=
  if s.cleanLevel ≠ dirtyLevel then (compute, ⟨dirtyLevel, compute⟩, true)
  else (s.valueCache, s, false)

/-- `Expression::Touch` (4705): `++Expression::data::dirtyLevel`. -/
def touch (dirtyLevel : Nat) : Nat := dirtyLevel + 1

/-- `Variable::operator=` (4751): asserts the assigned value finite, stores
it, and calls `Expression::Touch`; returns the stored value and the new
dirty level. -/
def assignVar (d : R) (dirtyLevel : Nat) : R × Nat := (d, touch dirtyLevel)

/-- Initial per-node cache state: `data::data` constructs with
`cleanLevel(0), valueCache(0)` (line 133). -/
def initialCache : ValueCache := ⟨0, .fin 0⟩

/-- Initial global dirty level: `dirtyLevel = 1` (line 169). -/
def initialDirtyLevel : Nat := 1

/-- `Expression::Expression(double)` (4517) forwards to
`Expression::data::constant` (387), which interns the value and otherwise
allocates a `ConstantNode` storing it unchanged — there is no finiteness
check and no sentinel kind.  Structurally the result is the constant node
of the given value. -/
def ofDouble (d : R) : Expr := .cnst d

/-- Node records held by the interning model: a constant node with its
stored value, a function node keyed by (kind, child), or an `Add` node with
its two children in construction order. -/
inductive NodeDesc where
  | cnstD (c : R)
  | fnD (k : Fn) (child : Nat)
  | addD (f g : Nat)
  deriving DecidableEq

/-- State of the interning machinery: the live nodes (by allocation id), the
allocation counter, the global constant table (`Expression::data::constantNode`),
the per-node `functionNode` maps flattened to a (child, kind) key, and the
per-node `addNode` maps flattened to an ordered (owner, sibling) key. -/
structure Tables where
  nodes : Nat → Option NodeDesc
  next : Nat
  constTab : R → Option Nat
  fnTab : Nat → Fn → Option Nat
  addTab : Nat → Nat → Option Nat

/-- Lookup in a table keyed by `double` with the C++ `==` as key equality:
NaN compares unequal to everything including itself, so a NaN key is never
found (`std::unordered_map<double, ...>::find`). -/
def lookupDouble (t : R → Option Nat) (q : R) : Option Nat :=
  if q = .nan then none else t q

/-- `Expression::data::constant` (387-392) together with the registration in
`ConstantNode::ConstantNode` (373): consult `constantNode`, on a hit clone
the existing node, on a miss allocate and register. -/
def internConst (σ : Tables) (q : R) : Nat × Tables :=
  match lookupDouble σ.constTab q with
  | some i => (i, σ)
  | none =>
      (σ.next,
        { nodes := fun i => if i = σ.next then some (.cnstD q) else σ.nodes i
          next := σ.next + 1
          constTab := fun r => if r = q then some σ.next else σ.constTab r
          fnTab := σ.fnTab
          addTab := σ.addTab })

/-- `Expression::data::function` (992-1078) together with the registration in
`FunctionNode::FunctionNode` (196-201): consult the receiver's
`functionNode` table, on a hit clone, on a miss allocate and register. -/
def internFn (σ : Tables) (c : Nat) (k : Fn) : Nat × Tables :=
  match σ.fnTab c k with
  | some i => (i, σ)
  | none =>
      (σ.next,
        { nodes := fun i => if i = σ.next then some (.fnD k c) else σ.nodes i
          next := σ.next + 1
          constTab := σ.constTab
          fnTab := fun c' k' => if c' = c ∧ k' = k then some σ.next else σ.fnTab c' k'
          addTab := σ.addTab })

/-- `Expression::data::commutative_add` (2228-2232) together with the
symmetric registration in `Add::Add` (1107-1114): consult the receiver's
`addNode` table under the sibling key; on a miss build `Add(p, this)`,
registered under both (p, this) and (this, p). -/
def internAdd (σ : Tables) (t p : Nat) : Nat × Tables :=
  match σ.addTab t p with
  | some i => (i, σ)
  | none =>
      (σ.next,
        { nodes := fun i => if i = σ.next then some (.addD p t) else σ.nodes i
          next := σ.next + 1
          constTab := σ.constTab
          fnTab := σ.fnTab
          addTab := fun a b =>
            if (a = p ∧ b = t) ∨ (a = t ∧ b = p) then some σ.next else σ.addTab a b })

/-- Coherence of the interning state: table hits point at live nodes of the
right shape, live interned nodes are registered (for constants only when the
key is findable, i.e. not NaN), `Add` registration is symmetric, and ids at
or above the allocation counter are free. -/
def Wf (σ : Tables) : Prop :=
  (∀ q i, lookupDouble σ.constTab q = some i → σ.nodes i = some (.cnstD q)) ∧
  (∀ q i, q ≠ R.nan → σ.nodes i = some (.cnstD q) →
    lookupDouble σ.constTab q = some i) ∧
  (∀ c k i, σ.fnTab c k = some i ↔ σ.nodes i = some (.fnD k c)) ∧
  (∀ a b i, σ.addTab a b = some i ↔
    (σ.nodes i = some (.addD a b) ∨ σ.nodes i = some (.addD b a))) ∧
  (∀ i, σ.next ≤ i → σ.nodes i = none)

/-- A construction request against the interning machinery. -/
inductive InternOp where
  | opConst (q : R)
  | opFn (c : Nat) (k : Fn)
  | opAdd (t p : Nat)

/-- Apply one construction request. -/
def stepIntern (σ : Tables) : InternOp → Tables
  | .opConst q => (internConst σ q).2
  | .opFn c k => (internFn σ c k).2
  | .opAdd t p => (internAdd σ t p).2

/-- Apply a sequence of construction requests. -/
def runInterns (σ : Tables) : List InternOp → Tables
  | [] => σ
  | op :: ops => runInterns (stepIntern σ op) ops

/-- The process-start state: no nodes, empty tables. -/
def emptyTables : Tables :=
  { nodes := fun _ => none
    next := 0
    constTab := fun _ => none
    fnTab := fun _ _ => none
    addTab := fun _ _ => none }

/-- Mathematical signum, the real-valued meaning of the `SIGN` node
(`double(x > 0) - (x < 0)`). -/
noncomputable def msgn (x : ℝ) : ℝ :=
  if 0 < x then 1 else if x < 0 then -1 else 0

/-- Mathematical cube root, the real-valued meaning of the `CBRT` node. -/
noncomputable def mcbrt (x : ℝ) : ℝ :=
  if x < 0 then -((-x) ^ ((1 : ℝ) / 3)) else x ^ ((1 : ℝ) / 3)

/-- The real-valued meaning of each unary node kind, as a partial function:
`none` where the mathematical function is undefined (negative `sqrt`
arguments, nonpositive `log` arguments, reciprocal of zero). -/
noncomputable def applyFnSem : Fn → ℝ → Option ℝ
  | .abs, x => some |x|
  | .sign, x => some (msgn x)
  | .sqrt, x => if 0 ≤ x then some (Real.sqrt x) else none
  | .cbrt, x => some (mcbrt x)
  | .log, x => if 0 < x then some (Real.log x) else none
  | .invert, x => if x = 0 then none else some x⁻¹
  | .negate, x => some (-x)
  | .square, x => some (x * x)

/-- The real-valued function denoted by an expression under an assignment of
real values to the variable identities: constants denote their (finite)
value, variables project the assignment, node kinds compose their
mathematical meaning; non-finite constants, the null expression, and points
outside a function's mathematical domain denote nothing. -/
noncomputable def denote : Expr → (Nat → ℝ) → Option ℝ
  | .null, _ => none
  | .cnst (.fin q), _ => some (q : ℝ)
  | .cnst _, _ => none
  | .var v, env => some (env v)
  | .fn k f, env => (denote f env).bind (applyFnSem k)
  | .addN f g, env => do
      let x ← denote f env
      let y ← denote g env
      some (x + y)
  | .mulN f g, env => do
      let x ← denote f env
      let y ← denote g env
      some (x * y)
  | .powN f g, env => do
      let x ← denote f env
      let y ← denote g env
      if 0 < x then some (x ^ y) else none

/-- Semantics of the `CONTINUOUS` attribute: the expression denotes a total
function of the variable assignment that is continuous (in the product
topology on assignments). -/
def ContinuousSem (e : Expr) : Prop :=
  ∃ F : (Nat → ℝ) → ℝ, Continuous F ∧ ∀ env, denote e env = some (F env)

/-- The expression `1 / (sign(v)^2 + 1)`, built exactly as the smart
constructors build it from a variable `v`. -/
def badContinuous : Expr :=
  .fn .invert (.addN (.fn .square (.fn .sign (.var 0))) (.cnst (.fin 1)))

/-- C1: differentiation base cases.  `ConstantNode::derivative` (2587)
returns the constant-0 node for every finite constant; `VariableNode::derivative`
(2594) returns constant 1 when differentiating by the node's own variable
identity and constant 0 for a different identity. -/
theorem laskenta_c1_deriv_base (c : R) (u v w : Nat) (fuel : Nat)
    (hc : c.finite = true) (huv : u ≠ v) :
    derivC (fuel + 1) (.cnst c) w = some (.cnst (.fin 0)) ∧
    derivC (fuel + 1) (.var v) v = some (.cnst (.fin 1)) ∧
    derivC (fuel + 1) (.var u) v = some (.cnst (.fin 0)) := by
  have hvu : v ≠ u := fun h => huv h.symm
  refine ⟨rfl, ?_, ?_⟩ <;> simp [derivC, hvu]

/-- Witness for C1 at the constant 5 and distinct variable identities 0, 1. -/
theorem laskenta_c1_deriv_base_witness :
    (R.fin 5).finite = true ∧ (0 : Nat) ≠ 1 ∧
    (derivC 1 (.cnst (R.fin 5)) 2 = some (.cnst (.fin 0)) ∧
     derivC 1 (.var 1) 1 = some (.cnst (.fin 1)) ∧
     derivC 1 (.var 0) 1 = some (.cnst (.fin 0))) :=
  ⟨by decide, by decide,
    laskenta_c1_deriv_base (R.fin 5) 0 1 2 0 (by decide) (by decide)⟩

/-- C3: `Mul::value` (3217) short-circuits on exact zero.  If the first
factor evaluates to exactly 0 the product evaluates to 0 and the second
factor's value path is not entered at all (the invocation count excludes it,
and the result stands even if the second factor would fail or be non-finite);
if the first factor is nonzero (possibly infinite or NaN) and the second
evaluates to exactly 0, the product still evaluates to 0. -/
theorem laskenta_c3_mul_zero (f g : Expr) (env : Nat → ℚ) (x : R) (m n : Nat)
    (hf : evalC f env = some (x, m)) :
    (x = .fin 0 → evalC (.mulN f g) env = some (.fin 0, m + 1)) ∧
    (x ≠ .fin 0 → evalC g env = some (.fin 0, n) →
      evalC (.mulN f g) env = some (.fin 0, m + n + 1)) := by
  constructor
  · intro hx
    subst hx
    simp [evalC, hf]
  · intro hx hg
    simp [evalC, hf, hg, hx]

/-- Witness for C3: `0 * <null>` evaluates to 0 touching only the first
factor (`evalC` of the uninitialized second factor would be fatal), and
`inf * 0` evaluates to 0. -/
theorem laskenta_c3_mul_zero_witness :
    (evalC (.cnst (.fin 0)) (fun _ => 0) = some (.fin 0, 1) ∧
     evalC (.mulN (.cnst (.fin 0)) .null) (fun _ => 0) = some (.fin 0, 2)) ∧
    (evalC (.cnst .inf) (fun _ => 0) = some (.inf, 1) ∧
     evalC (.cnst (.fin 0)) (fun _ => 0) = some (.fin 0, 1) ∧
     evalC (.mulN (.cnst .inf) (.cnst (.fin 0))) (fun _ => 0) = some (.fin 0, 3)) := by
  refine ⟨⟨rfl, ?_⟩, rfl, rfl, ?_⟩
  · exact (laskenta_c3_mul_zero (.cnst (.fin 0)) .null (fun _ => 0) (.fin 0) 1 0 rfl).1 rfl
  · exact (laskenta_c3_mul_zero (.cnst .inf) (.cnst (.fin 0)) (fun _ => 0) .inf 1 1 rfl).2
      (by decide) rfl

/-- C4 counterexample: constructing an `Expression` from NaN does not yield
a dedicated sentinel — `Expression::data::constant` (387) has no finiteness
check, so the result is an ordinary constant node whose stored value is
non-finite. -/
theorem laskenta_c4_counterexample :
    ofDouble R.nan = Expr.cnst R.nan ∧ R.nan.finite = false :=
  ⟨rfl, rfl⟩

/-- C4 amended: constructing from any value (finite or not) yields the
constant node storing that value unchanged, and a non-finite constant node
guarantees no attribute (`ConstantNode::guaranteed`, 3241, answers only
under `!isnan && !isinf`). -/
theorem laskenta_c4_amended (d : R) (a : Attr) (h : d.finite = false) :
    ofDouble d = Expr.cnst d ∧ guaranteedC (Expr.cnst d) a = false := by
  refine ⟨rfl, ?_⟩
  cases d <;> simp_all [guaranteedC, guaranteedConst, R.finite]

/-- Witness for C4 amended, at NaN and the DEFINED attribute. -/
theorem laskenta_c4_amended_witness :
    R.nan.finite = false ∧
    (ofDouble R.nan = Expr.cnst R.nan ∧
     guaranteedC (Expr.cnst R.nan) .DEFINED = false) :=
  ⟨rfl, laskenta_c4_amended R.nan .DEFINED rfl⟩

/-- C6 (code bug): `Invert::mul` (2339) falls back to `Expression::data::add`
instead of `Expression::data::mul` (line 2351), so `(1/v) * 0` — whose
right operand is not easily invertible — is rewritten as `(1/v) + 0` and
collapses to `1/v`, not to the constant-0 node that identity-element
collapse requires. -/
theorem laskenta_c6_invert_mul_bug :
    smMul 4 (.fn .invert (.var 0)) (.cnst (.fin 0)) = some (.fn .invert (.var 0)) ∧
    some (Expr.fn .invert (.var 0)) ≠ some (Expr.cnst (.fin 0)) :=
  ⟨by decide, by decide⟩

/-- C7: `Expression::data::derive` (line 95).  When the cache is empty the
call runs `derivative` and stores the resulting handle; while the cache
holds a node, every further request returns that same node without running
`derivative` again (the recompute flag stays false), whatever node or
variable the request names — the cache is not keyed by the variable. -/
theorem laskenta_c7_derive_cache (fuel : Nat) (e d : Expr) (v : Nat)
    (h : derivC fuel e v = some d) :
    deriveCached fuel none e v = some (d, some d, true) ∧
    (∀ fuel2, deriveCached fuel2 (some d) e v = some (d, some d, false)) := by
  constructor
  · simp [deriveCached, h]
  · intro _
    rfl

/-- Witness for C7 at the variable node `v`, derivative constant 1. -/
theorem laskenta_c7_derive_cache_witness :
    derivC 1 (.var 0) 0 = some (.cnst (.fin 1)) ∧
    (deriveCached 1 none (.var 0) 0 = some (.cnst (.fin 1), some (.cnst (.fin 1)), true) ∧
     ∀ fuel2, deriveCached fuel2 (some (.cnst (.fin 1))) (.var 0) 0
       = some (.cnst (.fin 1), some (.cnst (.fin 1)), false)) :=
  ⟨by decide, laskenta_c7_derive_cache 1 (.var 0) (.cnst (.fin 1)) 0 (by decide)⟩

/-- C8 counterexample: a variable node is a leaf but stores depth 1, not 0 —
`VariableNode::VariableNode` (419) constructs with `Expression::data(1)`. -/
theorem laskenta_c8_counterexample :
    Expr.depth (.var 0) = 1 ∧ (1 : Nat) ≠ 0 :=
  ⟨rfl, by decide⟩

/-- C8 amended: constant nodes and the null expression have depth 0,
variable nodes have depth 1, and every interior node stores 1 plus the
maximum depth of its children; `Expression::Depth` (4710) returns this
stored field, which `Expr.depth` models. -/
theorem laskenta_c8_amended (c : R) (v : Nat) (k : Fn) (f g : Expr) :
    Expr.depth .null = 0 ∧ Expr.depth (.cnst c) = 0 ∧ Expr.depth (.var v) = 1 ∧
    Expr.depth (.fn k f) = f.depth + 1 ∧
    Expr.depth (.addN f g) = max f.depth g.depth + 1 ∧
    Expr.depth (.mulN f g) = max f.depth g.depth + 1 ∧
    Expr.depth (.powN f g) = max f.depth g.depth + 1 :=
  ⟨rfl, rfl, rfl, rfl, rfl, rfl, rfl⟩

/-- C10 counterexample: the default-constructed expression is not a
two-sided identity — at the concrete input `x = constant 5`, `x + <null>`
dispatches through the base `commutative_add`, which `NullExpression` does
not override, and builds a real `Add` node rather than returning `x`'s own
node; and evaluating a product whose second factor is the null expression
is not fatal when the first factor is 0, because `Mul::value` (3217)
short-circuits. -/
theorem laskenta_c10_counterexample :
    smAdd 4 (.cnst (.fin 5)) .null = some (.addN (.cnst (.fin 5)) .null) ∧
    some (Expr.addN (.cnst (.fin 5)) .null) ≠ some (Expr.cnst (.fin 5)) ∧
    evalC (.mulN (.cnst (.fin 0)) .null) (fun _ => 0) = some (.fin 0, 2) :=
  ⟨by decide, by decide, rfl⟩

/-- C10 amended: the default-constructed expression is a left identity for
addition and multiplication (`NullExpression::add`/`mul`, 281-282, return a
clone of the other operand), its derivative with respect to any variable is
itself (289), and evaluating the null expression itself is a fatal runtime
error (290), modelled as `none`.  On the right-hand side of `+` or `*` the
outcome depends on the left operand's dispatch and is in general not the
left operand's own node, as the counterexample shows at one input. -/
theorem laskenta_c10_amended (x : Expr) (v fuel : Nat) (env : Nat → ℚ) :
    smAdd (fuel + 1) .null x = some x ∧
    smMul (fuel + 1) .null x = some x ∧
    derivC (fuel + 1) .null v = some .null ∧
    evalC .null env = none :=
  ⟨rfl, rfl, rfl, rfl⟩

/-- C2: the value-cache protocol of `Expression::data::evaluate` (line 96)
under the global dirty counter, for any node state whose stamp does not run
ahead of the counter (an invariant established at construction — stamps
start at 0 while the counter starts at 1 — and preserved by every step).
In order: the cache is used (no recompute) iff the stored stamp equals the
current dirty level; when it is used the stored value is returned and the
state is untouched; evaluation never pushes the stamp past the counter; the
initial state is stale; after an assignment through `Variable::operator=`
(4751), which bumps the counter, the next evaluation recomputes; and with
no intervening assignment a repeated evaluation returns the first result
from the cache without recomputing. -/
theorem laskenta_c2_value_cache (d : Nat) (s : ValueCache) (compute compute2 x : R)
    (hinv : s.cleanLevel ≤ d) :
    ((evaluateCached d s compute).2.2 = false ↔ s.cleanLevel = d) ∧
    ((evaluateCached d s compute).2.2 = false →
      evaluateCached d s compute = (s.valueCache, s, false)) ∧
    ((evaluateCached d s compute).2.1).cleanLevel ≤ d ∧
    initialCache.cleanLevel < initialDirtyLevel ∧
    (evaluateCached (assignVar x d).2 s compute).2.2 = true ∧
    evaluateCached d (evaluateCached d s compute).2.1 compute2 =
      ((evaluateCached d s compute).1, (evaluateCached d s compute).2.1, false) := by
  have hne : s.cleanLevel ≠ d + 1 := by omega
  by_cases h : s.cleanLevel = d
  · simp [evaluateCached, h, assignVar, touch, hne, initialCache, initialDirtyLevel]
  · simp [evaluateCached, h, assignVar, touch, hne, initialCache, initialDirtyLevel]

/-- Witness for C2 at a freshly constructed node and dirty level 1. -/
theorem laskenta_c2_value_cache_witness :
    initialCache.cleanLevel ≤ 1 ∧
    (((evaluateCached 1 initialCache (.fin 7)).2.2 = false ↔
        initialCache.cleanLevel = 1) ∧
     ((evaluateCached 1 initialCache (.fin 7)).2.2 = false →
        evaluateCached 1 initialCache (.fin 7) = (initialCache.valueCache, initialCache, false)) ∧
     ((evaluateCached 1 initialCache (.fin 7)).2.1).cleanLevel ≤ 1 ∧
     initialCache.cleanLevel < initialDirtyLevel ∧
     (evaluateCached (assignVar (.fin 2) 1).2 initialCache (.fin 7)).2.2 = true ∧
     evaluateCached 1 (evaluateCached 1 initialCache (.fin 7)).2.1 (.fin 8) =
       ((evaluateCached 1 initialCache (.fin 7)).1,
        (evaluateCached 1 initialCache (.fin 7)).2.1, false)) :=
  ⟨by decide, laskenta_c2_value_cache 1 initialCache (.fin 7) (.fin 8) (.fin 2) (by decide)⟩

/-- C9 (code bug): attribute inference is not sound for `CONTINUOUS`.
`Invert::guaranteed` (3861) answers `CONTINUOUS` from positivity or
negativity of the child alone, without requiring the child continuous.
For `1/(sign(v)^2 + 1)` every rule along the way is as coded
(`Sign`/`Square` are DEFINED, `square(sign v)` is NONNEGATIVE, the sum with
1 is POSITIVE and NONZERO), so `Guaranteed(CONTINUOUS)` returns true — yet
the denoted function jumps from 1 (at `v = 0`) to 1/2 (at `v ≠ 0`). -/
theorem laskenta_c9_invert_continuous_bug :
    guaranteedC badContinuous .CONTINUOUS = true ∧ ¬ ContinuousSem badContinuous := by
  constructor
  · decide
  · rintro ⟨F, hF, hall⟩
    have hden : ∀ env : Nat → ℝ, denote badContinuous env
        = some ((msgn (env 0) * msgn (env 0) + 1)⁻¹) := by
      intro env
      have hne : msgn (env 0) * msgn (env 0) + 1 ≠ 0 := by
        have h0 := mul_self_nonneg (msgn (env 0))
        intro h
        nlinarith
      simp [badContinuous, denote, applyFnSem, hne]
    have hval : ∀ t : ℝ, F (fun _ => t) = (msgn t * msgn t + 1)⁻¹ := by
      intro t
      have h := hall (fun _ => t)
      rw [hden (fun _ => t)] at h
      exact (Option.some.inj h).symm
    have hcg : Continuous fun t : ℝ => F fun _ => t :=
      hF.comp (continuous_pi fun _ => continuous_id)
    have h0 : F (fun _ => (0 : ℝ)) = 1 := by
      rw [hval 0]
      norm_num [msgn]
    have hpos : ∀ t : ℝ, 0 < t → F (fun _ => t) = 2⁻¹ := by
      intro t ht
      rw [hval t]
      rw [msgn, if_pos ht]
      norm_num
    have hs : Filter.Tendsto (fun n : ℕ => (1 : ℝ) / (n + 1)) Filter.atTop (nhds 0) :=
      tendsto_one_div_add_atTop_nhds_zero_nat
    have hgs : Filter.Tendsto (fun n : ℕ => F fun _ => (1 : ℝ) / (n + 1))
        Filter.atTop (nhds (F fun _ => (0 : ℝ))) :=
      (hcg.tendsto 0).comp hs
    have hconst : (fun n : ℕ => F fun _ => (1 : ℝ) / (n + 1)) = fun _ => (2 : ℝ)⁻¹ := by
      funext n
      exact hpos _ (by positivity)
    rw [hconst, h0] at hgs
    have hcontra : (2 : ℝ)⁻¹ = 1 := tendsto_nhds_unique tendsto_const_nhds hgs
    norm_num at hcontra

/-- The empty starting state is coherent. -/
theorem wf_empty : Wf emptyTables := by
  refine ⟨?_, ?_, ?_, ?_, ?_⟩
  · intro q i h
    simp [emptyTables, lookupDouble] at h
  · intro q i _ h
    simp [emptyTables] at h
  · intro c k i
    simp [emptyTables]
  · intro a b i
    simp [emptyTables]
  · intro i _
    rfl

/-- `internConst` preserves coherence. -/
theorem wf_internConst (σ : Tables) (q : R) (h : Wf σ) : Wf (internConst σ q).2 := by
  obtain ⟨h1, h2, h3, h4, h5⟩ := h
  unfold internConst
  cases hl : lookupDouble σ.constTab q with
  | some i => exact ⟨h1, h2, h3, h4, h5⟩
  | none =>
    dsimp only
    refine ⟨?_, ?_, ?_, ?_, ?_⟩
    · dsimp only
      intro q' i hq'
      simp only [lookupDouble] at hq' ⊢
      by_cases hn : q' = R.nan
      · simp [hn] at hq'
      · rw [if_neg hn] at hq'
        by_cases he : q' = q
        · subst he
          rw [if_pos rfl] at hq'
          obtain rfl : σ.next = i := Option.some.inj hq'
          simp
        · rw [if_neg he] at hq'
          have hold := h1 q' i (by simp only [lookupDouble]; rw [if_neg hn]; exact hq')
          have hne : ¬ i = σ.next := by
            intro he2
            rw [he2, h5 σ.next le_rfl] at hold
            exact Option.noConfusion hold
          simpa [hne] using hold
    · dsimp only
      intro q' i hn hq'
      by_cases he : i = σ.next
      · rw [he, if_pos rfl] at hq'
        obtain rfl : q = q' := NodeDesc.cnstD.inj (Option.some.inj hq')
        simp only [lookupDouble]
        rw [if_neg hn]
        simp [he]
      · rw [if_neg he] at hq'
        have hold := h2 q' i hn hq'
        have hqq : ¬ q' = q := by
          intro hqe
          rw [hqe] at hold
          rw [hl] at hold
          exact Option.noConfusion hold
        simp only [lookupDouble] at hold ⊢
        rw [if_neg hn] at hold ⊢
        simpa [hqq] using hold
    · dsimp only
      intro c k i
      constructor
      · dsimp only
        intro hf
        have := (h3 c k i).mp hf
        have hne : ¬ i = σ.next := by
          intro he2
          rw [he2, h5 σ.next le_rfl] at this
          exact Option.noConfusion this
        simpa [hne] using this
      · dsimp only
        intro hf
        by_cases he : i = σ.next
        · rw [he, if_pos rfl] at hf
          exact absurd (Option.some.inj hf) (by intro hc; exact NodeDesc.noConfusion hc)
        · rw [if_neg he] at hf
          exact (h3 c k i).mpr hf
    · dsimp only
      intro a b i
      constructor
      · dsimp only
        intro hf
        have := (h4 a b i).mp hf
        have hne : ¬ i = σ.next := by
          intro he2
          rw [he2, h5 σ.next le_rfl] at this
          rcases this with hx | hx <;> exact Option.noConfusion hx
        rcases this with hx | hx
        · exact Or.inl (by simpa [hne] using hx)
        · exact Or.inr (by simpa [hne] using hx)
      · dsimp only
        intro hf
        by_cases he : i = σ.next
        · rw [he, if_pos rfl] at hf
          rcases hf with hx | hx <;>
            exact absurd (Option.some.inj hx) (by intro hc; exact NodeDesc.noConfusion hc)
        · rw [if_neg he] at hf
          exact (h4 a b i).mpr hf
    · dsimp only
      intro i hi
      have hne : ¬ i = σ.next := by omega
      rw [if_neg hne]
      exact h5 i (by omega)

/-- `internFn` preserves coherence. -/
theorem wf_internFn (σ : Tables) (c : Nat) (k : Fn) (h : Wf σ) : Wf (internFn σ c k).2 := by
  obtain ⟨h1, h2, h3, h4, h5⟩ := h
  unfold internFn
  cases hl : σ.fnTab c k with
  | some i => exact ⟨h1, h2, h3, h4, h5⟩
  | none =>
    dsimp only
    refine ⟨?_, ?_, ?_, ?_, ?_⟩
    · dsimp only
      intro q' i hq'
      simp only [lookupDouble] at hq' ⊢
      by_cases hn : q' = R.nan
      · simp [hn] at hq'
      · rw [if_neg hn] at hq'
        have hold := h1 q' i (by simp only [lookupDouble]; rw [if_neg hn]; exact hq')
        have hne : ¬ i = σ.next := by
          intro he2
          rw [he2, h5 σ.next le_rfl] at hold
          exact Option.noConfusion hold
        simpa [hne] using hold
    · dsimp only
      intro q' i hn hq'
      by_cases he : i = σ.next
      · rw [he, if_pos rfl] at hq'
        exact absurd (Option.some.inj hq') (by intro hc; exact NodeDesc.noConfusion hc)
      · rw [if_neg he] at hq'
        exact h2 q' i hn hq'
    · dsimp only
      intro c' k' i
      constructor
      · dsimp only
        intro hf
        by_cases he : c' = c ∧ k' = k
        · rw [if_pos he] at hf
          obtain rfl : σ.next = i := Option.some.inj hf
          obtain ⟨rfl, rfl⟩ := he
          simp
        · rw [if_neg he] at hf
          have hold := (h3 c' k' i).mp hf
          have hne : ¬ i = σ.next := by
            intro he2
            rw [he2, h5 σ.next le_rfl] at hold
            exact Option.noConfusion hold
          simpa [hne] using hold
      · dsimp only
        intro hf
        by_cases he : i = σ.next
        · rw [he, if_pos rfl] at hf
          obtain ⟨rfl, rfl⟩ := NodeDesc.fnD.inj (Option.some.inj hf)
          rw [if_pos ⟨rfl, rfl⟩, he]
        · rw [if_neg he] at hf
          have hold := (h3 c' k' i).mpr hf
          have hne : ¬ (c' = c ∧ k' = k) := by
            rintro ⟨rfl, rfl⟩
            rw [hl] at hold
            exact Option.noConfusion hold
          rw [if_neg hne]
          exact hold
    · dsimp only
      intro a b i
      constructor
      · dsimp only
        intro hf
        have hold := (h4 a b i).mp hf
        have hne : ¬ i = σ.next := by
          intro he2
          rw [he2, h5 σ.next le_rfl] at hold
          rcases hold with hx | hx <;> exact Option.noConfusion hx
        rcases hold with hx | hx
        · exact Or.inl (by simpa [hne] using hx)
        · exact Or.inr (by simpa [hne] using hx)
      · dsimp only
        intro hf
        by_cases he : i = σ.next
        · rw [he, if_pos rfl] at hf
          rcases hf with hx | hx <;>
            exact absurd (Option.some.inj hx) (by intro hc; exact NodeDesc.noConfusion hc)
        · rw [if_neg he] at hf
          exact (h4 a b i).mpr hf
    · dsimp only
      intro i hi
      have hne : ¬ i = σ.next := by omega
      rw [if_neg hne]
      exact h5 i (by omega)

/-- `internAdd` preserves coherence. -/
theorem wf_internAdd (σ : Tables) (t p : Nat) (h : Wf σ) : Wf (internAdd σ t p).2 := by
  obtain ⟨h1, h2, h3, h4, h5⟩ := h
  unfold internAdd
  cases hl : σ.addTab t p with
  | some i => exact ⟨h1, h2, h3, h4, h5⟩
  | none =>
    dsimp only
    refine ⟨?_, ?_, ?_, ?_, ?_⟩
    · dsimp only
      intro q' i hq'
      simp only [lookupDouble] at hq' ⊢
      by_cases hn : q' = R.nan
      · simp [hn] at hq'
      · rw [if_neg hn] at hq'
        have hold := h1 q' i (by simp only [lookupDouble]; rw [if_neg hn]; exact hq')
        have hne : ¬ i = σ.next := by
          intro he2
          rw [he2, h5 σ.next le_rfl] at hold
          exact Option.noConfusion hold
        simpa [hne] using hold
    · dsimp only
      intro q' i hn hq'
      by_cases he : i = σ.next
      · rw [he, if_pos rfl] at hq'
        exact absurd (Option.some.inj hq') (by intro hc; exact NodeDesc.noConfusion hc)
      · rw [if_neg he] at hq'
        exact h2 q' i hn hq'
    · dsimp only
      intro c' k' i
      constructor
      · dsimp only
        intro hf
        have hold := (h3 c' k' i).mp hf
        have hne : ¬ i = σ.next := by
          intro he2
          rw [he2, h5 σ.next le_rfl] at hold
          exact Option.noConfusion hold
        simpa [hne] using hold
      · dsimp only
        intro hf
        by_cases he : i = σ.next
        · rw [he, if_pos rfl] at hf
          exact absurd (Option.some.inj hf) (by intro hc; exact NodeDesc.noConfusion hc)
        · rw [if_neg he] at hf
          exact (h3 c' k' i).mpr hf
    · dsimp only
      intro a b i
      constructor
      · dsimp only
        intro hf
        by_cases he : (a = p ∧ b = t) ∨ (a = t ∧ b = p)
        · rw [if_pos he] at hf
          obtain rfl : σ.next = i := Option.some.inj hf
          rcases he with ⟨rfl, rfl⟩ | ⟨rfl, rfl⟩
          · exact Or.inl (by simp)
          · exact Or.inr (by simp)
        · rw [if_neg he] at hf
          have hold := (h4 a b i).mp hf
          have hne : ¬ i = σ.next := by
            intro he2
            rw [he2, h5 σ.next le_rfl] at hold
            rcases hold with hx | hx <;> exact Option.noConfusion hx
          rcases hold with hx | hx
          · exact Or.inl (by simpa [hne] using hx)
          · exact Or.inr (by simpa [hne] using hx)
      · dsimp only
        intro hf
        by_cases he : i = σ.next
        · subst he
          have hcond : (a = p ∧ b = t) ∨ (a = t ∧ b = p) := by
            rcases hf with hx | hx
            · rw [if_pos rfl] at hx
              obtain ⟨rfl, rfl⟩ := NodeDesc.addD.inj (Option.some.inj hx)
              exact Or.inl ⟨rfl, rfl⟩
            · rw [if_pos rfl] at hx
              obtain ⟨rfl, rfl⟩ := NodeDesc.addD.inj (Option.some.inj hx)
              exact Or.inr ⟨rfl, rfl⟩
          rw [if_pos hcond]
        · have hf' : σ.nodes i = some (.addD a b) ∨ σ.nodes i = some (.addD b a) := by
            rcases hf with hx | hx
            · rw [if_neg he] at hx
              exact Or.inl hx
            · rw [if_neg he] at hx
              exact Or.inr hx
          have hold := (h4 a b i).mpr hf'
          have hne2 : ¬ ((a = p ∧ b = t) ∨ (a = t ∧ b = p)) := by
            rintro (⟨ha, hb⟩ | ⟨ha, hb⟩)
            · rw [ha, hb] at hf'
              have hsym := (h4 t p i).mpr (hf'.elim Or.inr Or.inl)
              rw [hl] at hsym
              exact Option.noConfusion hsym
            · rw [ha, hb] at hold
              rw [hl] at hold
              exact Option.noConfusion hold
          rw [if_neg hne2]
          exact hold
    · dsimp only
      intro i hi
      have hne : ¬ i = σ.next := by omega
      rw [if_neg hne]
      exact h5 i (by omega)

/-- Coherence is preserved by every request and hence along any run. -/
theorem wf_stepIntern (σ : Tables) (op : InternOp) (h : Wf σ) : Wf (stepIntern σ op) := by
  cases op with
  | opConst q => exact wf_internConst σ q h
  | opFn c k => exact wf_internFn σ c k h
  | opAdd t p => exact wf_internAdd σ t p h

/-- Coherence along any run of construction requests. -/
theorem wf_runInterns (σ : Tables) (ops : List InternOp) (h : Wf σ) :
    Wf (runInterns σ ops) := by
  induction ops generalizing σ with
  | nil => exact h
  | cons op ops ih => exact ih _ (wf_stepIntern σ op h)

/-- Uniqueness of live interned nodes: at most one live constant node per
non-NaN value, at most one function node per (kind, child), and at most one
`Add` node per unordered child pair. -/
def UniqueLive (σ : Tables) : Prop :=
  (∀ q i j, q ≠ R.nan → σ.nodes i = some (.cnstD q) → σ.nodes j = some (.cnstD q) →
    i = j) ∧
  (∀ k c i j, σ.nodes i = some (.fnD k c) → σ.nodes j = some (.fnD k c) → i = j) ∧
  (∀ a b i j, σ.nodes i = some (.addD a b) →
    (σ.nodes j = some (.addD a b) ∨ σ.nodes j = some (.addD b a)) → i = j)

/-- Coherence implies uniqueness. -/
theorem uniqueLive_of_wf (σ : Tables) (h : Wf σ) : UniqueLive σ := by
  obtain ⟨h1, h2, h3, h4, _⟩ := h
  refine ⟨?_, ?_, ?_⟩
  · intro q i j hn hi hj
    have hli := h2 q i hn hi
    have hlj := h2 q j hn hj
    rw [hli] at hlj
    exact Option.some.inj hlj
  · intro k c i j hi hj
    have hli := (h3 c k i).mpr hi
    have hlj := (h3 c k j).mpr hj
    rw [hli] at hlj
    exact Option.some.inj hlj
  · intro a b i j hi hj
    have hli := (h4 a b i).mpr (Or.inl hi)
    have hlj := (h4 a b j).mpr hj
    rw [hli] at hlj
    exact Option.some.inj hlj

/-- C5 counterexample: interning uniqueness fails for NaN constants.
`std::unordered_map<double, ...>::find` can never find a NaN key
(`NaN == NaN` is false), so each of two `Expression(NaN)` constructions
misses the constant table, allocates a fresh `ConstantNode`, and leaves two
live nodes for the same (CONSTANT, NaN) tuple. -/
theorem laskenta_c5_counterexample :
    (runInterns emptyTables [.opConst R.nan, .opConst R.nan]).nodes 0
      = some (.cnstD R.nan) ∧
    (runInterns emptyTables [.opConst R.nan, .opConst R.nan]).nodes 1
      = some (.cnstD R.nan) ∧
    (0 : Nat) ≠ 1 := by
  refine ⟨?_, ?_, by decide⟩ <;> rfl

/-- C5 amended: after any sequence of constructions from the process-start
state, at most one live node exists for each (operation, operand-tuple) key
whose lookup can succeed — i.e. all function and `Add` keys, and every
constant value other than NaN — and each of the modelled smart constructors
(`Expression::data::constant`, `function`, `commutative_add`) first consults
its interning table and on a hit returns the existing node with the state
untouched, allocating nothing. -/
theorem laskenta_c5_amended (ops : List InternOp) :
    UniqueLive (runInterns emptyTables ops) ∧
    (∀ σ q i, lookupDouble σ.constTab q = some i → internConst σ q = (i, σ)) ∧
    (∀ σ c k i, σ.fnTab c k = some i → internFn σ c k = (i, σ)) ∧
    (∀ σ t p i, σ.addTab t p = some i → internAdd σ t p = (i, σ)) := by
  refine ⟨uniqueLive_of_wf _ (wf_runInterns _ ops wf_empty), ?_, ?_, ?_⟩
  · intro σ q i hhit
    unfold internConst
    rw [hhit]
  · intro σ c k i hhit
    unfold internFn
    rw [hhit]
  · intro σ t p i hhit
    unfold internAdd
    rw [hhit]

/-- Witness for C5 amended: after interning the constant 5, a second
request hits the table and returns the existing node id with the state
unchanged. -/
theorem laskenta_c5_amended_witness :
    lookupDouble (runInterns emptyTables [.opConst (.fin 5)]).constTab (.fin 5)
      = some 0 ∧
    internConst (runInterns emptyTables [.opConst (.fin 5)]) (.fin 5)
      = (0, runInterns emptyTables [.opConst (.fin 5)]) :=
  ⟨by decide,
    (laskenta_c5_amended []).2.1 (runInterns emptyTables [.opConst (.fin 5)])
      (.fin 5) 0 (by decide)⟩

end Laskenta
